import Mathlib

/-!
# Verification of the gomon change-debounce-and-process-supervision core

Shallow embedding of the `opxyc/codmon` (gomon) sources:

* `main.go` — `isItWorthIt` (path filter) and `watch` (debouncer),
* `worker.go` — `worker` (supervisor), `runCommands` (command-chain runner),
  `startCommand` (tokenization/spawn), `killProcess`,
* `config.go` — `parse` / `get` (command-chain loading).

Strings are modelled as `List Char`.  External library functions that the
source calls (`regexp.MatchString`, `filepath.Dir`, `filepath.Base`) are
abstracted as function parameters; everything written in the repository
itself is translated directly.
-/

namespace Codmon

/-- Strings of the Go program, modelled as lists of characters. -/
abbrev Str := List Char

/-! ## Path filter: `main.go`, `isItWorthIt`

The source calls `regexp.MatchString(pattern, s)` and discards the error:
`matched, _ := regexp.MatchString(d, dir)`.  In Go, when the pattern fails
to compile the returned `matched` is `false`.  We model the regexp engine
as an abstract `re : Str → Str → Except Str Bool` and reproduce the
error-discarding call site. -/

/-- `matched, _ := regexp.MatchString(pat, s)`: the boolean a Go caller
sees after discarding the error (false whenever the engine errors,
e.g. on a malformed pattern). -/
def goMatchString (re : Str → Str → Except Str Bool) (pat s : Str) : Bool :=
  match re pat s with
  | .ok b => b
  | .error _ => false

/-- `strings.Replace(s, "\\", "/", n)`: replace the first `n` occurrences
of a backslash by a forward slash. -/
def replaceBackslashes : Str → Nat → Str
  | [], _ => []
  | c :: rest, 0 => c :: rest
  | c :: rest, n + 1 =>
    if c = '\\' then '/' :: replaceBackslashes rest n
    else c :: replaceBackslashes rest (n + 1)

/-- `watcherConf` (config.go): the exclusion rule sets consulted by
`isItWorthIt`.  (The `Pattern` field of the Go struct is consumed only by
the external watcher library, never by the embedded functions, so it is
omitted here.) -/
structure watcherConf where
  ExcludedDirs : List Str
  ExcludedFiles : List Str

/-- `isItWorthIt` (main.go:94-111).  `goDir`/`goBase` stand for
`filepath.Dir`/`filepath.Base`.  The source loops over `ExcludedDirs`
returning `false` on the first match, then over `ExcludedFiles`, and
returns `true` if nothing matched; the early-returning loops are embedded
as `List.any`. -/
def isItWorthIt (re : Str → Str → Except Str Bool) (goDir goBase : Str → Str)
    (filePath : Str) (config : watcherConf) : Bool :=
  let dir := replaceBackslashes (goDir filePath) 99
  if config.ExcludedDirs.any (fun d => goMatchString re d dir) then false
  else if config.ExcludedFiles.any (fun f => goMatchString re f (goBase filePath)) then false
  else true

/-! ## Debouncer: `main.go`, `watch` (lines 65-88)

`watch` keeps `prevMsgSent : time.Time` (zero initially) and, for each
event that passes `isItWorthIt`, sends it on the jobs channel only when
`!(currentTime.Sub(prevMsgSent) < time.Second*3)`, updating `prevMsgSent`
to the emission time.  Times are modelled as `Int` nanoseconds (Go
`Duration` is a signed integer count of nanoseconds). -/

/-- `time.Second * 3`, in nanoseconds: the quiet window compared against
in `watch`. -/
def quietNs : Int := 3 * 1000000000

/-- One filesystem event as seen by `watch`: the time `time.Now()` would
return when it is processed and the path carried by the event. -/
structure watchEvent where
  time : Int
  path : Str
  deriving DecidableEq

/-- The debouncing loop of `watch`, folded over a finite event list:
given the current `prevMsgSent` value and the incoming events (in arrival
order), returns the events actually forwarded to the jobs channel. -/
def watchRun (re : Str → Str → Except Str Bool) (goDir goBase : Str → Str)
    (config : watcherConf) : Int → List watchEvent → List watchEvent
  | _, [] => []
  | prevMsgSent, ev :: rest =>
    if isItWorthIt re goDir goBase ev.path config then
      if ¬ (ev.time - prevMsgSent < quietNs) then
        ev :: watchRun re goDir goBase config ev.time rest
      else
        watchRun re goDir goBase config prevMsgSent rest
    else
      watchRun re goDir goBase config prevMsgSent rest

/-- `var prevMsgSent time.Time`: the zero value the loop starts from. -/
def watchInitPrev : Int := 0

/-! ## Tokenization: `worker.go`, `startCommand` (lines 94-108)

`startCommand` does `args := strings.Split(command, " ")` and then
`exec.Command(args[0], args[1:]...)`.  `strings.Split` with the
single-character separator `" "` cuts the string at every space. -/

/-- `strings.Split(s, " ")`: the list of maximal space-free pieces of
`s`, cut at every single space (adjacent spaces yield empty pieces; the
result is never empty). -/
def splitSpace : Str → List Str
  | [] => [[]]
  | c :: rest =>
    if c = ' ' then [] :: splitSpace rest
    else
      match splitSpace rest with
      | t :: ts => (c :: t) :: ts
      | [] => [[c]]

/-- `strings.Join(parts, " ")`: interleave a single space between the
parts. -/
def joinSpace : List Str → Str
  | [] => []
  | [t] => t
  | t :: ts => t ++ ' ' :: joinSpace ts

/-- The executable / argument split performed by `startCommand`:
`args[0]` and `args[1:]` of `strings.Split(command, " ")`. -/
def startCommandArgv (command : Str) : Str × List Str :=
  let args := splitSpace command
  (args.headD [], args.tail)

/-! ## The command-chain loop body: `worker.go`, `runCommands` (lines 59-90)

The inner goroutine of `runCommands` iterates over all configured
commands.  For each command it attempts a spawn; on spawn error it logs
`"[gomon] Failed to start."` and `continue`s; on success it records the
process, waits for it (`cmd.Wait()`), and then — whatever `Wait`
returned, including the error produced when the process was killed —
falls through to the next loop iteration.  Nothing in the loop consults
a cancellation token or epoch, so the iteration itself is a pure function
of the per-command outcomes, captured here. -/

/-- What happens to the `i`-th command of one chain run: either the
spawn fails (`cmd.Start` returns an error), or a process runs and
`cmd.Wait()` returns with `waitErr` telling whether it reported an error
(a killed process reports an error). -/
inductive CmdOutcome where
  | spawnFail
  | ran (waitErr : Bool)
  deriving DecidableEq

/-- Observable record of one chain run: which command indices had a
process started for them, and which logged a failed start. -/
inductive ChainEv where
  | started (i : Nat)
  | failedToStart (i : Nat)
  deriving DecidableEq

/-- The `for _, command := range commands` loop of the chain goroutine,
beginning at command index `i`: spawn failure logs and continues; a
started process is waited for and the loop continues regardless of the
wait result. -/
def chainRunFrom (outcome : Nat → CmdOutcome) : List Str → Nat → List ChainEv
  | [], _ => []
  | _ :: rest, i =>
    match outcome i with
    | .spawnFail => .failedToStart i :: chainRunFrom outcome rest (i + 1)
    | .ran _ => .started i :: chainRunFrom outcome rest (i + 1)

/-- One full chain run over the configured commands. -/
def chainRun (cmds : List Str) (outcome : Nat → CmdOutcome) : List ChainEv :=
  chainRunFrom outcome cmds 0

/-! ## Command-chain loading: `config.go`, `parse` and `get`

Only the command-chain part of the configuration is relevant to the
claims.  `parse` takes the non-flag arguments and the (possibly absent)
piped standard input; `get` merges in the optional `gomon.json`. -/

/-- `strings.Trim(s, " ")`: drop spaces from both ends. -/
def trimSpaces (s : Str) : Str :=
  ((s.dropWhile (· = ' ')).reverse.dropWhile (· = ' ')).reverse

/-- `strings.Split(s, "&&")`: cut at every leftmost non-overlapping
occurrence of the two-character separator. -/
def splitAmpAmp : Str → List Str
  | [] => [[]]
  | '&' :: '&' :: rest => [] :: splitAmpAmp rest
  | c :: rest =>
    match splitAmpAmp rest with
    | t :: ts => (c :: t) :: ts
    | [] => [[c]]

/-- Split a raw command string on `"&&"` and trim each piece, as both
`parse` and `get` do. -/
def splitCommands (cmdRaw : Str) : List Str :=
  (splitAmpAmp cmdRaw).map trimSpaces

/-- The command-determining part of `parse` (config.go:112-164).
`args` is `flag.Args()`; `piped` is `some content` when standard input
is a pipe and `none` when it is a character device (no piped input).
With no arguments and no pipe, `parse` returns `nil` for the commands;
with piped input it strips the final character (`cmdRaw[:len(cmdRaw)-1]`)
before splitting. -/
def parseCommands (args : List Str) (piped : Option Str) : Option (List Str) :=
  match args, piped with
  | [], none => none
  | [], some input => some (splitCommands input.dropLast)
  | a :: rest, _ => some (splitCommands (joinSpace (a :: rest)))

/-- The parsed `gomon.json` contents relevant to command loading. -/
structure jsonConf where
  Cmd : Str

/-- The command-determining part of `get` (config.go:29-109).  `json` is
`none` when `getConfFromJSON` returned an error (file missing or
malformed), in which case `get` returns early with `parse`'s commands.
Otherwise the source guard is `commands == nil && &jsonConf.Cmd != nil`;
the second conjunct takes the address of a struct field and is therefore
always true, so whenever the flag/pipe produced no commands the JSON
`cmd` string is split — even when it is empty. -/
def getCommands (args : List Str) (piped : Option Str) (json : Option jsonConf) :
    Option (List Str) :=
  let commands := parseCommands args piped
  match json with
  | none => commands
  | some jc =>
    match commands with
    | some c => some c
    | none => some (splitCommands jc.Cmd)

/-- What `main` (main.go:14-22) does right after configuration loading:
exit with usage and code 2 when the commands pointer is `nil`, otherwise
wire up the watcher and enter the watch loop with the loaded chain. -/
inductive Startup where
  | usageExit (code : Nat)
  | enterWatch (cmds : List Str)
  deriving DecidableEq

/-- The startup decision of `main` as a function of the configuration
inputs. -/
def mainStartup (args : List Str) (piped : Option Str) (json : Option jsonConf) :
    Startup :=
  match getCommands args piped json with
  | none => .usageExit 2
  | some cmds => .enterWatch cmds

/-! ## Supervisor and runner: `worker.go`, `worker` + `runCommands`

`worker` loops: receive from `jobs`; if `currentProcess != nil`, call
`killProcess` (which clears `currentProcess` only when `Kill()`
succeeded); sleep one second; send on the unbuffered `okToExecute`
channel.  `runCommands` loops: receive from `okToExecute`; launch a new
chain goroutine (one per accepted trigger — an *epoch*).  The chain
goroutine walks the command list as in `chainRunFrom`, writing
`currentProcess` on each successful spawn and (only in verbose mode, on
a wait error) clearing it after `cmd.Wait()`.

This is modelled as a small-step transition system.  Trigger consumption
order, the kill, the rendezvous on `okToExecute`, and the chain
goroutines' progress are interleaved nondeterministically; kill success,
spawn success and wait results are nondeterministic.  Process ids are
drawn from a counter; the observable history is a trace of events,
oldest first. -/

/-- Observable events of the supervisor/runner system.  Epoch `e` is the
run launched by the `e`-th accepted trigger (counting from 0). -/
inductive Ev where
  /-- `killProcess(currentProcess)` was called while consuming the
  trigger that will start epoch `e`; `ok` is whether `Kill()` succeeded. -/
  | killAttempt (e : Nat) (ok : Bool)
  /-- The supervisor's `okToExecute <- true` was received by
  `runCommands`, launching the chain goroutine of epoch `e`. -/
  | okSignal (e : Nat)
  /-- Epoch `e`'s goroutine started a process `pid` for its command at
  index `i` (`cmd.Start()` succeeded). -/
  | spawnOk (e i pid : Nat)
  /-- Epoch `e`'s goroutine failed to start command `i` and logged
  `"[gomon] Failed to start."`. -/
  | spawnFail (e i : Nat)
  /-- Epoch `e`'s `cmd.Wait()` for command `i` returned; `waitErr` is
  whether it reported an error (killed processes do). -/
  | waitDone (e i : Nat) (waitErr : Bool)
  deriving DecidableEq

/-- Program counter of one chain goroutine: `idx` is the command the
`for` loop is at, `running` whether it is blocked in `cmd.Wait()`. -/
structure ChainSt where
  idx : Nat
  running : Bool
  deriving DecidableEq

/-- Program counter of the `worker` goroutine: blocked at `<-jobs`, or
past the kill-and-sleep and about to send `okToExecute <- true`. -/
inductive WorkerPC where
  | awaitJob
  | settled
  deriving DecidableEq

/-- Global state of the supervisor/runner system. -/
structure Sys where
  /-- Messages sent to the `jobs` channel not yet received by `worker`,
  in order.  `main` seeds this with one synthetic `"nothing"` before the
  watcher delivers anything. -/
  pending : List Str
  /-- Number of triggers `worker` has finished handing over to
  `runCommands`, i.e. the epoch the next accepted trigger will start. -/
  consumed : Nat
  /-- The shared `currentProcess` variable (a process id, or `none`). -/
  cur : Option Nat
  /-- `worker`'s program counter. -/
  wpc : WorkerPC
  /-- The chain goroutines, by epoch: `none` if that epoch was never
  launched, otherwise its loop state. -/
  chains : Nat → Option ChainSt
  /-- Fresh process-id supply. -/
  nextPid : Nat
  /-- Event history, oldest first. -/
  trace : List Ev

/-- One interleaved step of the system, for a fixed command list and
verbose flag.  Each constructor is one atomic piece of `worker.go`.  -/
inductive Step (cmds : List Str) (verbose : Bool) : Sys → Sys → Prop where
  /-- `worker` receives a job with `currentProcess == nil`: no kill, it
  proceeds through the sleep towards the `okToExecute` send. -/
  | recvNoKill (s : Sys) (t : Str) (rest : List Str)
      (hw : s.wpc = .awaitJob) (hp : s.pending = t :: rest) (hc : s.cur = none) :
      Step cmds verbose s { s with pending := rest, wpc := .settled }
  /-- `worker` receives a job with `currentProcess = p` and
  `process.Kill()` succeeds: `killProcess` clears `currentProcess`. -/
  | recvKillOk (s : Sys) (t : Str) (rest : List Str) (p : Nat)
      (hw : s.wpc = .awaitJob) (hp : s.pending = t :: rest) (hc : s.cur = some p) :
      Step cmds verbose s
        { s with pending := rest, cur := none, wpc := .settled,
                 trace := s.trace ++ [.killAttempt s.consumed true] }
  /-- `worker` receives a job with `currentProcess = p` and
  `process.Kill()` fails: `killProcess` returns the error *without*
  clearing `currentProcess`; `worker` logs (in verbose mode) and carries
  on regardless. -/
  | recvKillErr (s : Sys) (t : Str) (rest : List Str) (p : Nat)
      (hw : s.wpc = .awaitJob) (hp : s.pending = t :: rest) (hc : s.cur = some p) :
      Step cmds verbose s
        { s with pending := rest, wpc := .settled,
                 trace := s.trace ++ [.killAttempt s.consumed false] }
  /-- The rendezvous on the unbuffered `okToExecute`: `worker`'s send is
  received by `runCommands`, which immediately launches the chain
  goroutine of the new epoch at command index 0. -/
  | signal (s : Sys) (hw : s.wpc = .settled) :
      Step cmds verbose s
        { s with wpc := .awaitJob, consumed := s.consumed + 1,
                 chains := Function.update s.chains s.consumed (some ⟨0, false⟩),
                 trace := s.trace ++ [.okSignal s.consumed] }
  /-- Chain goroutine of epoch `e`, at command `i`: `cmd.Start()`
  succeeds; `currentProcess = cmd.Process` is written and the goroutine
  blocks in `cmd.Wait()`. -/
  | spawnOkStep (s : Sys) (e i : Nat)
      (hch : s.chains e = some ⟨i, false⟩) (hi : i < cmds.length) :
      Step cmds verbose s
        { s with chains := Function.update s.chains e (some ⟨i, true⟩),
                 cur := some s.nextPid, nextPid := s.nextPid + 1,
                 trace := s.trace ++ [.spawnOk e i s.nextPid] }
  /-- Chain goroutine of epoch `e`, at command `i`: `cmd.Start()` fails;
  the failure is logged and the loop `continue`s to the next command. -/
  | spawnFailStep (s : Sys) (e i : Nat)
      (hch : s.chains e = some ⟨i, false⟩) (hi : i < cmds.length) :
      Step cmds verbose s
        { s with chains := Function.update s.chains e (some ⟨i + 1, false⟩),
                 trace := s.trace ++ [.spawnFail e i] }
  /-- Chain goroutine of epoch `e`: `cmd.Wait()` for command `i`
  returns with error flag `waitErr`.  Only in verbose mode and on an
  error does the source clear `currentProcess`; in every case the loop
  moves on to command `i + 1`. -/
  | waitDoneStep (s : Sys) (e i : Nat) (waitErr : Bool)
      (hch : s.chains e = some ⟨i, true⟩) :
      Step cmds verbose s
        { s with chains := Function.update s.chains e (some ⟨i + 1, false⟩),
                 cur := if verbose && waitErr then none else s.cur,
                 trace := s.trace ++ [.waitDone e i waitErr] }

/-- The initial state produced by `main` (main.go:31-54): empty history,
no process, `worker` at `<-jobs`, and the jobs channel fed first with the
single synthetic `"nothing"` message and then with whatever the watcher
will emit. -/
def init (ext : List Str) : Sys :=
  { pending := "nothing".toList :: ext
    consumed := 0
    cur := none
    wpc := .awaitJob
    chains := fun _ => none
    nextPid := 1
    trace := [] }

/-- Reachability of the supervisor/runner system. -/
abbrev Reach (cmds : List Str) (verbose : Bool) : Sys → Sys → Prop :=
  Relation.ReflTransGen (Step cmds verbose)

/-- The epoch of a chain-goroutine event (`none` for supervisor
events). -/
def chainEvEpoch : Ev → Option Nat
  | .spawnOk e _ _ => some e
  | .spawnFail e _ => some e
  | .waitDone e _ _ => some e
  | _ => none

/-- `a` occurs strictly before `b` in the trace `tr`. -/
def EvBefore (a b : Ev) (tr : List Ev) : Prop :=
  ∃ t1 t2 t3, tr = t1 ++ a :: (t2 ++ b :: t3)

/-- Well-ordering of a supervisor/runner trace: every chain-goroutine
event of epoch `e` is preceded by `okSignal e`, which in turn is
preceded by any `killAttempt` of epoch `e` present in the trace. -/
def OrderOK (tr : List Ev) : Prop :=
  ∀ t1 x t2, tr = t1 ++ x :: t2 →
    (∀ e, chainEvEpoch x = some e →
        Ev.okSignal e ∈ t1 ∧ ∀ b, Ev.killAttempt e b ∈ tr → Ev.killAttempt e b ∈ t1) ∧
    (∀ e, x = Ev.okSignal e → ∀ b, Ev.killAttempt e b ∈ tr → Ev.killAttempt e b ∈ t1)

/-- The inductive invariant of the supervisor/runner system: chain
goroutines only exist for already-signalled epochs, `okSignal e` is in
the trace exactly for the epochs already handed over, a `killAttempt`
belongs to a completed hand-over or to the one in progress, and the
trace is well-ordered. -/
def Inv (s : Sys) : Prop :=
  (∀ e, (s.chains e).isSome → e < s.consumed) ∧
  (∀ e, Ev.okSignal e ∈ s.trace ↔ e < s.consumed) ∧
  (∀ e b, Ev.killAttempt e b ∈ s.trace →
      e < s.consumed ∨ (e = s.consumed ∧ s.wpc = .settled)) ∧
  OrderOK s.trace

/-! ## Concrete scenario data

A three-command chain, one external watcher event, and an explicit run
of the system: epoch 0 starts, its first command's process is killed
when the second trigger arrives, and the killed epoch nevertheless
proceeds to its second command while epoch 1 starts at command 0. -/

/-- A concrete three-command chain (`"go && ./a && make"`). -/
def cmdsDemo : List Str := ["go".toList, "./a".toList, "make".toList]

/-- One external watcher event following the synthetic startup trigger. -/
def extDemo : List Str := ["x".toList]

/-- Initial state of the demo run. -/
def d0 : Sys := init extDemo

/-- `worker` consumes the synthetic startup trigger (no process yet). -/
def d1 : Sys := { d0 with pending := extDemo, wpc := .settled }

/-- The `okToExecute` rendezvous launches epoch 0. -/
def d2 : Sys :=
  { d1 with wpc := .awaitJob, consumed := d1.consumed + 1,
            chains := Function.update d1.chains d1.consumed (some ⟨0, false⟩),
            trace := d1.trace ++ [.okSignal d1.consumed] }

/-- Epoch 0 spawns its first command as process 1. -/
def d3 : Sys :=
  { d2 with chains := Function.update d2.chains 0 (some ⟨0, true⟩),
            cur := some d2.nextPid, nextPid := d2.nextPid + 1,
            trace := d2.trace ++ [.spawnOk 0 0 d2.nextPid] }

/-- `worker` consumes the watcher trigger and kills process 1
(successfully) while epoch 0's command 0 is running. -/
def d4 : Sys :=
  { d3 with pending := [], cur := none, wpc := .settled,
            trace := d3.trace ++ [.killAttempt d3.consumed true] }

/-- Epoch 0's `cmd.Wait()` for the killed command 0 returns an error. -/
def d5 : Sys :=
  { d4 with chains := Function.update d4.chains 0 (some ⟨0 + 1, false⟩),
            cur := if false && true then none else d4.cur,
            trace := d4.trace ++ [.waitDone 0 0 true] }

/-- The killed epoch 0 carries on and spawns its second command as
process 2. -/
def d6 : Sys :=
  { d5 with chains := Function.update d5.chains 0 (some ⟨1, true⟩),
            cur := some d5.nextPid, nextPid := d5.nextPid + 1,
            trace := d5.trace ++ [.spawnOk 0 1 d5.nextPid] }

/-- The rendezvous for the second trigger launches epoch 1. -/
def d7 : Sys :=
  { d6 with wpc := .awaitJob, consumed := d6.consumed + 1,
            chains := Function.update d6.chains d6.consumed (some ⟨0, false⟩),
            trace := d6.trace ++ [.okSignal d6.consumed] }

/-- Epoch 1 spawns its first command as process 3. -/
def d8 : Sys :=
  { d7 with chains := Function.update d7.chains 1 (some ⟨0, true⟩),
            cur := some d7.nextPid, nextPid := d7.nextPid + 1,
            trace := d7.trace ++ [.spawnOk 1 0 d7.nextPid] }

/-- Alternative continuation of `d3`: the kill of process 1 *fails*
(e.g. the process already exited); `killProcess` returns the error
without clearing `currentProcess`. -/
def e4 : Sys :=
  { d3 with pending := [], wpc := .settled,
            trace := d3.trace ++ [.killAttempt d3.consumed false] }

/-- Startup run, first phase: the synthetic trigger is consumed before
any watcher event. -/
def s9a (ext : List Str) : Sys := { init ext with pending := ext, wpc := .settled }

/-- Startup run, second phase: epoch 0 is launched. -/
def s9b (ext : List Str) : Sys :=
  { s9a ext with wpc := .awaitJob, consumed := (s9a ext).consumed + 1,
                 chains := Function.update (s9a ext).chains (s9a ext).consumed (some ⟨0, false⟩),
                 trace := (s9a ext).trace ++ [.okSignal (s9a ext).consumed] }

/-- Startup run, third phase: epoch 0's first command is spawned. -/
def s9c (ext : List Str) : Sys :=
  { s9b ext with chains := Function.update (s9b ext).chains 0 (some ⟨0, true⟩),
                 cur := some (s9b ext).nextPid, nextPid := (s9b ext).nextPid + 1,
                 trace := (s9b ext).trace ++ [.spawnOk 0 0 (s9b ext).nextPid] }

/-- A regex engine that never matches (all patterns compile, nothing
matches). -/
def reNone : Str → Str → Except Str Bool := fun _ _ => .ok false

/-- A regex engine on which every pattern fails to compile. -/
def reErr : Str → Str → Except Str Bool := fun _ _ => .error "bad".toList

/-- A malformed pattern (unclosed group). -/
def badPat : Str := "(".toList

/-- A demo path. -/
def pathDemo : Str := "src/foo.go".toList

/-- An exclusion rule set with no rules. -/
def confEmpty : watcherConf := ⟨[], []⟩

/-- A qualifying watch event arriving 1ns after the last emission. -/
def wEvDemo : watchEvent := ⟨1, pathDemo⟩

/-- Per-command outcomes in which command 0's process is killed
(`cmd.Wait` errors) and every other command runs to completion. -/
def outcomeDemoKill : Nat → CmdOutcome :=
  fun i => if i = 0 then .ran true else .ran false

/-- Per-command outcomes in which command 0 fails to spawn and every
other command runs to completion. -/
def outcomeDemoFail : Nat → CmdOutcome :=
  fun i => if i = 0 then .spawnFail else .ran false

/-- `gomon.json` parsed from the file `{}`: a configuration present but
with no `cmd` key, so `Cmd` is the empty string. -/
def jsonEmpty : jsonConf := ⟨[]⟩

/-- A demo command string containing spaces. -/
def cmdDemoStr : Str := "go build -o app".toList

/-- The first token of `cmdDemoStr`. -/
def tokDemo : Str := "go".toList

/-- Decomposing an occurrence inside a list with one element appended:
either the occurrence is the appended element, or it occurs in the
original list. -/
theorem append_singleton_split {α : Type} {l t1 t2 : List α} {a x : α}
    (h : l ++ [x] = t1 ++ a :: t2) :
    (t1 = l ∧ a = x ∧ t2 = []) ∨ ∃ t2', l = t1 ++ a :: t2' ∧ t2 = t2' ++ [x] := by
  rcases List.eq_nil_or_concat t2 with rfl | ⟨t2', x', rfl⟩
  · have h2 := List.append_inj' h rfl
    exact Or.inl ⟨h2.1.symm, (List.cons.injEq ..▸ h2.2.symm).1, rfl⟩
  · simp only [List.concat_eq_append] at h ⊢
    rw [show t1 ++ a :: (t2' ++ [x']) = (t1 ++ a :: t2') ++ [x'] by simp] at h
    have h2 := List.append_inj' h rfl
    exact Or.inr ⟨t2', h2.1, by injection h2.2 with hx; rw [hx]⟩

theorem orderOK_nil : OrderOK [] := by
  intro t1 x t2 h
  exact absurd h (by simp)

/-- A chain event in a well-ordered trace has its epoch's `okSignal`
somewhere in the trace. -/
theorem orderOK_mem_chainEv {tr : List Ev} (h : OrderOK tr) {ev : Ev} {e : Nat}
    (hmem : ev ∈ tr) (he : chainEvEpoch ev = some e) : Ev.okSignal e ∈ tr := by
  obtain ⟨t1, t2, rfl⟩ := List.append_of_mem hmem
  have := ((h t1 ev t2 rfl).1 e he).1
  exact List.mem_append.mpr (Or.inl this)

/-- Appending one event preserves trace well-ordering, provided a chain
event lands only after its epoch's signal and a kill lands only when its
epoch has neither signalled nor run anything yet. -/
theorem orderOK_append {tr : List Ev} (x : Ev) (h : OrderOK tr)
    (hchain : ∀ e, chainEvEpoch x = some e → Ev.okSignal e ∈ tr)
    (hkill : ∀ e b, x = Ev.killAttempt e b →
        Ev.okSignal e ∉ tr ∧ ∀ ev ∈ tr, chainEvEpoch ev ≠ some e) :
    OrderOK (tr ++ [x]) := by
  intro t1 y t2 hsplit
  rcases append_singleton_split hsplit with ⟨rfl, rfl, rfl⟩ | ⟨t2', hl, ht2⟩
  · constructor
    · intro e he
      refine ⟨hchain e he, fun b hb => ?_⟩
      rcases List.mem_append.mp hb with h' | h'
      · exact h'
      · rw [← List.mem_singleton.mp h'] at he
        exact absurd he (by simp [chainEvEpoch])
    · intro e hx b hb
      rcases List.mem_append.mp hb with h' | h'
      · exact h'
      · rw [hx] at h'
        exact absurd (List.mem_singleton.mp h') (by simp)
  · subst hl ht2
    have hold := h t1 y t2' rfl
    constructor
    · intro e he
      refine ⟨(hold.1 e he).1, fun b hb => ?_⟩
      rcases List.mem_append.mp hb with h' | h'
      · exact (hold.1 e he).2 b h'
      · exfalso
        have hx := List.mem_singleton.mp h'
        exact (hkill e b hx.symm).2 y (by simp) he
    · intro e hx b hb
      rcases List.mem_append.mp hb with h' | h'
      · exact hold.2 e hx b h'
      · exfalso
        have hx' := List.mem_singleton.mp h'
        refine (hkill e b hx'.symm).1 ?_
        rw [← hx]
        simp

theorem inv_init (ext : List Str) : Inv (init ext) := by
  refine ⟨?_, ?_, ?_, orderOK_nil⟩ <;> intro e <;> simp [init]

theorem inv_step {cmds : List Str} {verbose : Bool} {s s' : Sys}
    (hstep : Step cmds verbose s s') (hinv : Inv s) : Inv s' := by
  obtain ⟨hA, hB, hC, hO⟩ := hinv
  cases hstep with
  | recvNoKill t rest hw hp hc =>
    refine ⟨hA, hB, ?_, hO⟩
    intro e b hkb
    rcases hC e b hkb with h | h
    · exact Or.inl h
    · rw [hw] at h
      exact absurd h.2 (by simp)
  | recvKillOk t rest p hw hp hc =>
    refine ⟨hA, ?_, ?_, ?_⟩
    · intro e
      show Ev.okSignal e ∈ s.trace ++ [.killAttempt s.consumed true] ↔ _
      simp only [List.mem_append, List.mem_singleton]
      simp [hB e]
    · intro e b hkb
      rcases List.mem_append.mp hkb with h | h
      · rcases hC e b h with h' | h'
        · exact Or.inl h'
        · rw [hw] at h'
          exact absurd h'.2 (by simp)
      · have h' := List.mem_singleton.mp h
        injection h' with he hb
        exact Or.inr ⟨he, rfl⟩
    · refine orderOK_append _ hO ?_ ?_
      · intro e he
        exact absurd he (by simp [chainEvEpoch])
      · intro e b hx
        injection hx with he hb
        subst he
        refine ⟨fun hmem => ?_, fun ev hmem hce => ?_⟩
        · exact absurd ((hB _).mp hmem) (by omega)
        · have := orderOK_mem_chainEv hO hmem hce
          exact absurd ((hB _).mp this) (by omega)
  | recvKillErr t rest p hw hp hc =>
    refine ⟨hA, ?_, ?_, ?_⟩
    · intro e
      show Ev.okSignal e ∈ s.trace ++ [.killAttempt s.consumed false] ↔ _
      simp only [List.mem_append, List.mem_singleton]
      simp [hB e]
    · intro e b hkb
      rcases List.mem_append.mp hkb with h | h
      · rcases hC e b h with h' | h'
        · exact Or.inl h'
        · rw [hw] at h'
          exact absurd h'.2 (by simp)
      · have h' := List.mem_singleton.mp h
        injection h' with he hb
        exact Or.inr ⟨he, rfl⟩
    · refine orderOK_append _ hO ?_ ?_
      · intro e he
        exact absurd he (by simp [chainEvEpoch])
      · intro e b hx
        injection hx with he hb
        subst he
        refine ⟨fun hmem => ?_, fun ev hmem hce => ?_⟩
        · exact absurd ((hB _).mp hmem) (by omega)
        · have := orderOK_mem_chainEv hO hmem hce
          exact absurd ((hB _).mp this) (by omega)
  | signal hw =>
    refine ⟨?_, ?_, ?_, ?_⟩
    · intro e h
      show e < s.consumed + 1
      by_cases hcase : e = s.consumed
      · omega
      · have h0 : (Function.update s.chains s.consumed (some ⟨0, false⟩) e).isSome := h
        rw [Function.update_noteq hcase] at h0
        exact Nat.lt_succ_of_lt (hA e h0)
    · intro e
      show Ev.okSignal e ∈ s.trace ++ [.okSignal s.consumed] ↔ e < s.consumed + 1
      simp only [List.mem_append, List.mem_singleton, Ev.okSignal.injEq]
      rw [hB e]
      omega
    · intro e b hkb
      rcases List.mem_append.mp hkb with h | h
      · rcases hC e b h with h' | h'
        · exact Or.inl (Nat.lt_succ_of_lt h')
        · refine Or.inl ?_
          have h1 := h'.1
          show e < s.consumed + 1
          omega
      · exact absurd (List.mem_singleton.mp h) (by simp)
    · refine orderOK_append _ hO ?_ ?_
      · intro e he
        exact absurd he (by simp [chainEvEpoch])
      · intro e b hx
        exact absurd hx (by simp)
  | spawnOkStep e i hch hi =>
    refine ⟨?_, ?_, ?_, ?_⟩
    · intro e' h
      show e' < s.consumed
      by_cases hcase : e' = e
      · rw [hcase]
        exact hA e (by rw [hch]; rfl)
      · have h0 : (Function.update s.chains e (some ⟨i, true⟩) e').isSome := h
        rw [Function.update_noteq hcase] at h0
        exact hA e' h0
    · intro e'
      show Ev.okSignal e' ∈ s.trace ++ [.spawnOk e i s.nextPid] ↔ e' < s.consumed
      simp only [List.mem_append, List.mem_singleton]
      simp [hB e']
    · intro e' b hkb
      rcases List.mem_append.mp hkb with h | h
      · exact hC e' b h
      · exact absurd (List.mem_singleton.mp h) (by simp)
    · refine orderOK_append _ hO ?_ ?_
      · intro e' he'
        simp only [chainEvEpoch, Option.some.injEq] at he'
        rw [← he']
        exact (hB e).mpr (hA e (by rw [hch]; rfl))
      · intro e' b hx
        exact absurd hx (by simp)
  | spawnFailStep e i hch hi =>
    refine ⟨?_, ?_, ?_, ?_⟩
    · intro e' h
      show e' < s.consumed
      by_cases hcase : e' = e
      · rw [hcase]
        exact hA e (by rw [hch]; rfl)
      · have h0 : (Function.update s.chains e (some ⟨i + 1, false⟩) e').isSome := h
        rw [Function.update_noteq hcase] at h0
        exact hA e' h0
    · intro e'
      show Ev.okSignal e' ∈ s.trace ++ [.spawnFail e i] ↔ e' < s.consumed
      simp only [List.mem_append, List.mem_singleton]
      simp [hB e']
    · intro e' b hkb
      rcases List.mem_append.mp hkb with h | h
      · exact hC e' b h
      · exact absurd (List.mem_singleton.mp h) (by simp)
    · refine orderOK_append _ hO ?_ ?_
      · intro e' he'
        simp only [chainEvEpoch, Option.some.injEq] at he'
        rw [← he']
        exact (hB e).mpr (hA e (by rw [hch]; rfl))
      · intro e' b hx
        exact absurd hx (by simp)
  | waitDoneStep e i waitErr hch =>
    refine ⟨?_, ?_, ?_, ?_⟩
    · intro e' h
      show e' < s.consumed
      by_cases hcase : e' = e
      · rw [hcase]
        exact hA e (by rw [hch]; rfl)
      · have h0 : (Function.update s.chains e (some ⟨i + 1, false⟩) e').isSome := h
        rw [Function.update_noteq hcase] at h0
        exact hA e' h0
    · intro e'
      show Ev.okSignal e' ∈ s.trace ++ [.waitDone e i waitErr] ↔ e' < s.consumed
      simp only [List.mem_append, List.mem_singleton]
      simp [hB e']
    · intro e' b hkb
      rcases List.mem_append.mp hkb with h | h
      · exact hC e' b h
      · exact absurd (List.mem_singleton.mp h) (by simp)
    · refine orderOK_append _ hO ?_ ?_
      · intro e' he'
        simp only [chainEvEpoch, Option.some.injEq] at he'
        rw [← he']
        exact (hB e).mpr (hA e (by rw [hch]; rfl))
      · intro e' b hx
        exact absurd hx (by simp)

/-- Every state reachable from the initial one satisfies the invariant. -/
theorem inv_reach {cmds : List Str} {verbose : Bool} {ext : List Str} {s : Sys}
    (h : Reach cmds verbose (init ext) s) : Inv s := by
  induction h with
  | refl => exact inv_init ext
  | tail _ hstep ih => exact inv_step hstep ih

/-- An event in the prefix of a split occurs before the split point. -/
theorem evBefore_of_mem_split {tr t1 t2 : List Ev} {a b : Ev}
    (hsplit : tr = t1 ++ b :: t2) (ha : a ∈ t1) : EvBefore a b tr := by
  obtain ⟨u1, u2, rfl⟩ := List.append_of_mem ha
  exact ⟨u1, u2, t2, by rw [hsplit]; simp⟩

/-- The demo run up to the kill-error branch point. -/
theorem reach_d3 : Reach cmdsDemo false (init extDemo) d3 := by
  have h01 : Step cmdsDemo false d0 d1 :=
    Step.recvNoKill d0 ("nothing".toList) extDemo rfl rfl rfl
  have h12 : Step cmdsDemo false d1 d2 := Step.signal d1 rfl
  have h23 : Step cmdsDemo false d2 d3 := Step.spawnOkStep d2 0 0 rfl (by decide)
  exact Relation.ReflTransGen.tail
    (Relation.ReflTransGen.tail (Relation.ReflTransGen.tail .refl h01) h12) h23

/-- The full demo run: kill of epoch 0's process, continuation of the
killed epoch, and start of epoch 1. -/
theorem reach_d8 : Reach cmdsDemo false (init extDemo) d8 := by
  have h34 : Step cmdsDemo false d3 d4 :=
    Step.recvKillOk d3 ("x".toList) [] 1 rfl rfl rfl
  have h45 : Step cmdsDemo false d4 d5 := Step.waitDoneStep d4 0 0 true rfl
  have h56 : Step cmdsDemo false d5 d6 := Step.spawnOkStep d5 0 1 rfl (by decide)
  have h67 : Step cmdsDemo false d6 d7 := Step.signal d6 rfl
  have h78 : Step cmdsDemo false d7 d8 := Step.spawnOkStep d7 1 0 rfl (by decide)
  exact Relation.ReflTransGen.tail
    (Relation.ReflTransGen.tail
      (Relation.ReflTransGen.tail
        (Relation.ReflTransGen.tail
          (Relation.ReflTransGen.tail reach_d3 h34) h45) h56) h67) h78

/-- **C6.** In every reachable state of the supervisor/runner system:
a command spawn of epoch `e` occurs only after `okSignal e` (the runner
spawns only after receiving the `okToExecute` signal of its epoch); the
signal for epoch `e` occurs only after the kill attempt performed while
consuming epoch `e`'s trigger (the supervisor sends `okToExecute` only
after `killProcess` — the settle delay `time.Sleep(time.Millisecond *
1000)` sits between the two in the worker's straight-line code); and
hence the kill attempt of an epoch is fully issued before that epoch's
first (indeed any) spawn. -/
theorem kill_before_next_epoch_spawn
    (cmds : List Str) (verbose : Bool) (ext : List Str) (s : Sys)
    (hreach : Reach cmds verbose (init ext) s) (e i pid : Nat) (b : Bool) :
    (Ev.spawnOk e i pid ∈ s.trace →
      EvBefore (.okSignal e) (.spawnOk e i pid) s.trace) ∧
    (Ev.killAttempt e b ∈ s.trace → Ev.okSignal e ∈ s.trace →
      EvBefore (.killAttempt e b) (.okSignal e) s.trace) ∧
    (Ev.killAttempt e b ∈ s.trace → Ev.spawnOk e i pid ∈ s.trace →
      EvBefore (.killAttempt e b) (.spawnOk e i pid) s.trace) := by
  obtain ⟨hA, hB, hC, hO⟩ := inv_reach hreach
  refine ⟨?_, ?_, ?_⟩
  · intro hmem
    obtain ⟨t1, t2, hsplit⟩ := List.append_of_mem hmem
    exact evBefore_of_mem_split hsplit
      ((hO t1 _ t2 hsplit).1 e (by simp [chainEvEpoch])).1
  · intro hk hs
    obtain ⟨t1, t2, hsplit⟩ := List.append_of_mem hs
    exact evBefore_of_mem_split hsplit ((hO t1 _ t2 hsplit).2 e rfl b hk)
  · intro hk hmem
    obtain ⟨t1, t2, hsplit⟩ := List.append_of_mem hmem
    exact evBefore_of_mem_split hsplit
      (((hO t1 _ t2 hsplit).1 e (by simp [chainEvEpoch])).2 b hk)

/-- Witness for `kill_before_next_epoch_spawn`: in the demo run, the
kill performed while consuming epoch 1's trigger precedes epoch 1's
first spawn. -/
theorem kill_before_next_epoch_spawn_witness :
    EvBefore (.killAttempt 1 true) (.spawnOk 1 0 3) d8.trace :=
  (kill_before_next_epoch_spawn cmdsDemo false extDemo d8 reach_d8 1 0 3 true).2.2
    (by decide) (by decide)

/-- **C1 (counterexample).** The claim says that after a mid-chain
kill, the killed Epoch's remaining commands are never started.  In the
demo run, epoch 0's command 0 is running as process 1 when the kill
arrives (`killAttempt 1 true` with `spawnOk 0 0 1` still unfinished),
and the trace then contains `spawnOk 0 1 2`: the killed epoch 0 *does*
start its second command, while the fresh epoch 1 also begins at
command 0 (`spawnOk 1 0 3`). -/
theorem killed_epoch_keeps_running_cex :
    Reach cmdsDemo false (init extDemo) d8 ∧
    d8.trace = [.okSignal 0, .spawnOk 0 0 1, .killAttempt 1 true,
                .waitDone 0 0 true, .spawnOk 0 1 2, .okSignal 1, .spawnOk 1 0 3] :=
  ⟨reach_d8, rfl⟩

/-- Every command position of a chain run is attempted, and what gets
recorded for it is entirely determined by its own outcome: a logged
spawn failure for `spawnFail`, a started process otherwise. -/
theorem chainRunFrom_attempts (outcome : Nat → CmdOutcome) :
    ∀ (cmds : List Str) (off j : Nat), j < cmds.length →
      (match outcome (off + j) with
       | .spawnFail => ChainEv.failedToStart (off + j)
       | .ran _ => ChainEv.started (off + j)) ∈ chainRunFrom outcome cmds off := by
  intro cmds
  induction cmds with
  | nil => intro off j h; simp at h
  | cons c rest ih =>
    intro off j h
    cases j with
    | zero =>
      rw [Nat.add_zero]
      cases hout : outcome off with
      | spawnFail => simp [chainRunFrom, hout]
      | ran w => simp [chainRunFrom, hout]
    | succ j' =>
      have h' : j' < rest.length := by simp at h; omega
      have hme := ih (off + 1) j' h'
      have harr : off + 1 + j' = off + (j' + 1) := by omega
      rw [harr] at hme
      cases hout : outcome off with
      | spawnFail =>
        rw [show chainRunFrom outcome (c :: rest) off
            = .failedToStart off :: chainRunFrom outcome rest (off + 1) by
              simp [chainRunFrom, hout]]
        exact List.mem_cons_of_mem _ hme
      | ran w =>
        rw [show chainRunFrom outcome (c :: rest) off
            = .started off :: chainRunFrom outcome rest (off + 1) by
              simp [chainRunFrom, hout]]
        exact List.mem_cons_of_mem _ hme

/-- **C1 (amended).** When the current child is killed while command
`i` is running (`cmd.Wait()` reports an error), iteration over the
remaining commands of that Epoch does **not** stop: every command of
the chain is still attempted by the killed Epoch's goroutine — `for _,
command := range commands` has no epoch or cancellation check — while
the fresh Epoch separately begins at command 1. -/
theorem killed_chain_still_attempts_rest (cmds : List Str)
    (outcome : Nat → CmdOutcome) (i : Nat) (hkill : outcome i = .ran true)
    (j : Nat) (hj : j < cmds.length) :
    ChainEv.started j ∈ chainRun cmds outcome ∨
    ChainEv.failedToStart j ∈ chainRun cmds outcome := by
  have hatt := chainRunFrom_attempts outcome cmds 0 j hj
  rw [Nat.zero_add] at hatt
  cases hout : outcome j with
  | spawnFail =>
    rw [hout] at hatt
    exact Or.inr hatt
  | ran w =>
    rw [hout] at hatt
    exact Or.inl hatt

/-- Witness for `killed_chain_still_attempts_rest`: with command 0
killed, command 1 of the same run is still attempted. -/
theorem killed_chain_still_attempts_rest_witness :
    outcomeDemoKill 0 = .ran true ∧ 1 < cmdsDemo.length ∧
    (ChainEv.started 1 ∈ chainRun cmdsDemo outcomeDemoKill ∨
     ChainEv.failedToStart 1 ∈ chainRun cmdsDemo outcomeDemoKill) :=
  ⟨rfl, by decide,
    killed_chain_still_attempts_rest cmdsDemo outcomeDemoKill 0 rfl 1 (by decide)⟩

/-- **C4.** A spawn failure of command `i` is logged
(`failedToStart i` is recorded) and does not prevent any other command
of the chain from being attempted in the same Epoch: the chain is not
short-circuited on spawn failure. -/
theorem spawn_failure_not_short_circuit (cmds : List Str)
    (outcome : Nat → CmdOutcome) (i : Nat) (hfail : outcome i = .spawnFail)
    (hi : i < cmds.length) (j : Nat) (hj : j < cmds.length) :
    ChainEv.failedToStart i ∈ chainRun cmds outcome ∧
    (ChainEv.started j ∈ chainRun cmds outcome ∨
     ChainEv.failedToStart j ∈ chainRun cmds outcome) := by
  constructor
  · have hatt := chainRunFrom_attempts outcome cmds 0 i hi
    rw [Nat.zero_add, hfail] at hatt
    exact hatt
  · have hatt := chainRunFrom_attempts outcome cmds 0 j hj
    rw [Nat.zero_add] at hatt
    cases hout : outcome j with
    | spawnFail =>
      rw [hout] at hatt
      exact Or.inr hatt
    | ran w =>
      rw [hout] at hatt
      exact Or.inl hatt

/-- Witness for `spawn_failure_not_short_circuit`: command 0 fails to
spawn, the failure is logged, and command 2 is still attempted. -/
theorem spawn_failure_not_short_circuit_witness :
    outcomeDemoFail 0 = .spawnFail ∧ 0 < cmdsDemo.length ∧ 2 < cmdsDemo.length ∧
    (ChainEv.failedToStart 0 ∈ chainRun cmdsDemo outcomeDemoFail ∧
     (ChainEv.started 2 ∈ chainRun cmdsDemo outcomeDemoFail ∨
      ChainEv.failedToStart 2 ∈ chainRun cmdsDemo outcomeDemoFail)) :=
  ⟨rfl, by decide, by decide,
    spawn_failure_not_short_circuit cmdsDemo outcomeDemoFail 0 rfl (by decide) 2 (by decide)⟩

/-- **C5 (counterexample).** The claim says ActiveProcess is cleared
regardless of the kill's outcome before the new run starts.  In state
`e4` — reached by consuming a trigger whose `process.Kill()` failed —
the worker is already past the kill and about to start the new run
(`wpc = settled`), yet `currentProcess` still holds the old process 1:
`killProcess` returns early on a kill error without clearing it. -/
theorem activeprocess_not_cleared_on_kill_error_cex :
    Reach cmdsDemo false (init extDemo) e4 ∧ e4.wpc = .settled ∧ e4.cur = some 1 := by
  refine ⟨?_, rfl, rfl⟩
  exact Relation.ReflTransGen.tail reach_d3
    (Step.recvKillErr d3 ("x".toList) [] 1 rfl rfl rfl)

/-- **C5 (amended).** On every trigger received with a non-empty
ActiveProcess, the worker issues exactly one hard-kill attempt and
proceeds to signal the new run regardless of its outcome (kill errors
are never fatal; they are logged only in verbose mode).  ActiveProcess
is cleared when the kill succeeds but is left pointing at the old
process when the kill fails — it is only overwritten later, by the new
Epoch's first successful spawn. -/
theorem kill_outcome_on_trigger (cmds : List Str) (verbose : Bool)
    (s s' : Sys) (p : Nat) (hstep : Step cmds verbose s s')
    (hw : s.wpc = .awaitJob) (hw' : s'.wpc = .settled) (hc : s.cur = some p) :
    ∃ b, s'.trace = s.trace ++ [.killAttempt s.consumed b] ∧
      s'.cur = (if b then none else some p) ∧ s'.wpc = .settled := by
  cases hstep with
  | recvNoKill t rest hw2 hp hc2 =>
    rw [hc] at hc2
    exact absurd hc2 (by simp)
  | recvKillOk t rest q hw2 hp hc2 =>
    exact ⟨true, rfl, rfl, rfl⟩
  | recvKillErr t rest q hw2 hp hc2 =>
    exact ⟨false, rfl, hc, rfl⟩
  | signal hw2 =>
    rw [hw] at hw2
    exact absurd hw2 (by simp)
  | spawnOkStep e i hch hi =>
    have h2 : s.wpc = .settled := hw'
    rw [hw] at h2
    exact absurd h2 (by simp)
  | spawnFailStep e i hch hi =>
    have h2 : s.wpc = .settled := hw'
    rw [hw] at h2
    exact absurd h2 (by simp)
  | waitDoneStep e i w hch =>
    have h2 : s.wpc = .settled := hw'
    rw [hw] at h2
    exact absurd h2 (by simp)

/-- Witness for `kill_outcome_on_trigger`: the failed-kill step from
`d3` to `e4`. -/
theorem kill_outcome_on_trigger_witness :
    ∃ b, e4.trace = d3.trace ++ [.killAttempt d3.consumed b] ∧
      e4.cur = (if b then none else some 1) ∧ e4.wpc = .settled :=
  kill_outcome_on_trigger cmdsDemo false d3 e4 1
    (Step.recvKillErr d3 ("x".toList) [] 1 rfl rfl rfl) rfl rfl rfl

/-- **C9.** `main` seeds the jobs channel with exactly one synthetic
`"nothing"` trigger ahead of every watcher event, and from the initial
state the system runs the chain once on it: epoch 0 is launched and its
first command spawned while every external event is still pending. -/
theorem startup_synthetic_trigger (cmds : List Str) (verbose : Bool)
    (ext : List Str) (hne : cmds ≠ []) :
    (init ext).pending = "nothing".toList :: ext ∧
    ∃ s : Sys, Reach cmds verbose (init ext) s ∧ s.pending = ext ∧
      s.consumed = 1 ∧ s.trace = [.okSignal 0, .spawnOk 0 0 1] := by
  refine ⟨rfl, s9c ext, ?_, rfl, rfl, rfl⟩
  have h01 : Step cmds verbose (init ext) (s9a ext) :=
    Step.recvNoKill (init ext) ("nothing".toList) ext rfl rfl rfl
  have h12 : Step cmds verbose (s9a ext) (s9b ext) := Step.signal (s9a ext) rfl
  have h23 : Step cmds verbose (s9b ext) (s9c ext) :=
    Step.spawnOkStep (s9b ext) 0 0 rfl (List.length_pos.mpr hne)
  exact Relation.ReflTransGen.tail
    (Relation.ReflTransGen.tail (Relation.ReflTransGen.tail .refl h01) h12) h23

/-- Witness for `startup_synthetic_trigger` at the demo chain. -/
theorem startup_synthetic_trigger_witness :
    cmdsDemo ≠ [] ∧
    ((init extDemo).pending = "nothing".toList :: extDemo ∧
     ∃ s : Sys, Reach cmdsDemo false (init extDemo) s ∧ s.pending = extDemo ∧
       s.consumed = 1 ∧ s.trace = [.okSignal 0, .spawnOk 0 0 1]) :=
  ⟨by decide, startup_synthetic_trigger cmdsDemo false extDemo (by decide)⟩

/-- **C2.** `isItWorthIt` returns `false` exactly when the changed
path's containing directory (as computed by the function: `filepath.Dir`
followed by the backslash normalisation) matches some pattern of
`ExcludedDirs`, or its base name (`filepath.Base`) matches some pattern
of `ExcludedFiles`; it returns `true` otherwise.  The function is a pure
Lean function of its inputs, so it has no side effects by construction. -/
theorem isItWorthIt_false_iff (re : Str → Str → Except Str Bool)
    (goDir goBase : Str → Str) (p : Str) (config : watcherConf) :
    isItWorthIt re goDir goBase p config = false ↔
      ((∃ d ∈ config.ExcludedDirs,
          goMatchString re d (replaceBackslashes (goDir p) 99) = true) ∨
       (∃ f ∈ config.ExcludedFiles, goMatchString re f (goBase p) = true)) := by
  constructor
  · intro h
    by_cases h1 : config.ExcludedDirs.any
        (fun d => goMatchString re d (replaceBackslashes (goDir p) 99)) = true
    · exact Or.inl (by simpa using List.any_eq_true.mp h1)
    · by_cases h2 : config.ExcludedFiles.any
          (fun f => goMatchString re f (goBase p)) = true
      · exact Or.inr (by simpa using List.any_eq_true.mp h2)
      · exfalso
        have htrue : isItWorthIt re goDir goBase p config = true := by
          unfold isItWorthIt
          simp [h1, h2]
        rw [h] at htrue
        exact absurd htrue (by simp)
  · intro h
    unfold isItWorthIt
    rcases h with h | h
    · have h1 : config.ExcludedDirs.any
          (fun d => goMatchString re d (replaceBackslashes (goDir p) 99)) = true :=
        List.any_eq_true.mpr (by simpa using h)
      simp [h1]
    · have h2 : config.ExcludedFiles.any
          (fun f => goMatchString re f (goBase p)) = true :=
        List.any_eq_true.mpr (by simpa using h)
      by_cases h1 : config.ExcludedDirs.any
          (fun d => goMatchString re d (replaceBackslashes (goDir p) 99)) = true
      · simp [h1]
      · simp [h1, h2]

/-- **C8.** A malformed pattern — one on which the regex engine errors
for every input — is treated as non-matching: inserting it anywhere in
the directory or file rule set leaves the result of `isItWorthIt`
unchanged, so a bad rule never causes a path to be excluded.  The
function is total over all string inputs by construction (the error of
`regexp.MatchString` is discarded, yielding `false`). -/
theorem malformed_pattern_harmless (re : Str → Str → Except Str Bool)
    (goDir goBase : Str → Str) (p : Str)
    (dirs1 dirs2 files1 files2 : List Str) (bad : Str)
    (hbad : ∀ s, ∃ err, re bad s = .error err) :
    isItWorthIt re goDir goBase p ⟨dirs1 ++ bad :: dirs2, files1 ++ files2⟩ =
      isItWorthIt re goDir goBase p ⟨dirs1 ++ dirs2, files1 ++ files2⟩ ∧
    isItWorthIt re goDir goBase p ⟨dirs1 ++ dirs2, files1 ++ bad :: files2⟩ =
      isItWorthIt re goDir goBase p ⟨dirs1 ++ dirs2, files1 ++ files2⟩ := by
  have hmatch : ∀ s, goMatchString re bad s = false := by
    intro s
    obtain ⟨err, herr⟩ := hbad s
    simp [goMatchString, herr]
  constructor <;>
  · unfold isItWorthIt
    simp [List.any_append, List.any_cons, hmatch]

/-- Witness for `malformed_pattern_harmless`: an engine that rejects
every pattern, and the unclosed-group rule `"("` added as the sole
directory rule and as the sole file rule. -/
theorem malformed_pattern_harmless_witness :
    (∀ s, ∃ err, reErr badPat s = Except.error err) ∧
    (isItWorthIt reErr id id pathDemo ⟨[badPat], []⟩ =
       isItWorthIt reErr id id pathDemo ⟨[], []⟩ ∧
     isItWorthIt reErr id id pathDemo ⟨[], [badPat]⟩ =
       isItWorthIt reErr id id pathDemo ⟨[], []⟩) :=
  ⟨fun _ => ⟨"bad".toList, rfl⟩,
    malformed_pattern_harmless reErr id id pathDemo [] [] [] [] badPat
      (fun _ => ⟨"bad".toList, rfl⟩)⟩

/-- The emissions of `watchRun` are at least `quietNs` apart, and the
first one is at least `quietNs` after the `prevMsgSent` value the loop
was entered with. -/
theorem watchRun_chain (re : Str → Str → Except Str Bool)
    (goDir goBase : Str → Str) (config : watcherConf) :
    ∀ (evs : List watchEvent) (prev : Int),
      List.Chain' (fun a b : watchEvent => quietNs ≤ b.time - a.time)
        (watchRun re goDir goBase config prev evs) ∧
      (∀ x ∈ (watchRun re goDir goBase config prev evs).head?,
        quietNs ≤ x.time - prev) := by
  intro evs
  induction evs with
  | nil => intro prev; simp [watchRun]
  | cons ev rest ih =>
    intro prev
    by_cases hworth : isItWorthIt re goDir goBase ev.path config = true
    · by_cases htime : ev.time - prev < quietNs
      · have heq : watchRun re goDir goBase config prev (ev :: rest)
            = watchRun re goDir goBase config prev rest := by
          simp [watchRun, hworth, htime]
        rw [heq]
        exact ih prev
      · have heq : watchRun re goDir goBase config prev (ev :: rest)
            = ev :: watchRun re goDir goBase config ev.time rest := by
          simp [watchRun, hworth, htime]
        rw [heq]
        refine ⟨List.chain'_cons'.mpr ⟨(ih ev.time).2, (ih ev.time).1⟩, ?_⟩
        intro x hx
        have hx' : ev = x := by simpa using hx
        rw [← hx']
        exact le_of_not_lt htime
    · have heq : watchRun re goDir goBase config prev (ev :: rest)
          = watchRun re goDir goBase config prev rest := by
        simp [watchRun, hworth]
      rw [heq]
      exact ih prev

/-- **C3.** The debouncer in `watch`: any two consecutive emitted
triggers are at least the quiet interval (`time.Second*3`) apart —
the timer is measured from the last *emitted* trigger, because
`prevMsgSent` is updated only on emission — and a qualifying event
arriving inside the quiet window is simply dropped: the run over the
remaining events is exactly the run without that event (nothing is
queued or replayed, and `prevMsgSent` is unchanged). -/
theorem watch_debounce (re : Str → Str → Except Str Bool)
    (goDir goBase : Str → Str) (config : watcherConf) (prev : Int)
    (evs : List watchEvent) :
    List.Chain' (fun a b : watchEvent => quietNs ≤ b.time - a.time)
      (watchRun re goDir goBase config prev evs) ∧
    (∀ ev rest, isItWorthIt re goDir goBase ev.path config = true →
      ev.time - prev < quietNs →
      watchRun re goDir goBase config prev (ev :: rest) =
        watchRun re goDir goBase config prev rest) := by
  refine ⟨(watchRun_chain re goDir goBase config evs prev).1, ?_⟩
  intro ev rest hworth htime
  simp [watchRun, hworth, htime]

/-- Witness for `watch_debounce`: with no exclusion rules, an event 1ns
after the loop start is qualifying yet inside the quiet window, and is
dropped. -/
theorem watch_debounce_witness :
    isItWorthIt reNone id id wEvDemo.path confEmpty = true ∧
    wEvDemo.time - 0 < quietNs ∧
    watchRun reNone id id confEmpty 0 [wEvDemo] =
      watchRun reNone id id confEmpty 0 [] :=
  ⟨rfl, by decide,
    (watch_debounce reNone id id confEmpty 0 [wEvDemo]).2 wEvDemo [] rfl (by decide)⟩

/-- `strings.Split` never returns an empty slice, so `args[0]` in
`startCommand` is always defined. -/
theorem splitSpace_ne_nil (s : Str) : splitSpace s ≠ [] := by
  induction s with
  | nil => simp [splitSpace]
  | cons c rest ih =>
    by_cases hc : c = ' '
    · simp [splitSpace, hc]
    · rcases hsr : splitSpace rest with _ | ⟨t, ts⟩
      · exact absurd hsr ih
      · simp [splitSpace, hc, hsr]

/-- No token produced by splitting on a space contains a space. -/
theorem splitSpace_no_space (s : Str) : ∀ t ∈ splitSpace s, ' ' ∉ t := by
  induction s with
  | nil =>
    intro t ht
    rw [List.mem_singleton.mp ht]
    simp
  | cons c rest ih =>
    intro t ht
    by_cases hc : c = ' '
    · rw [show splitSpace (c :: rest) = [] :: splitSpace rest by
        simp [splitSpace, hc]] at ht
      rcases List.mem_cons.mp ht with h | h
      · rw [h]; simp
      · exact ih t h
    · rcases hsr : splitSpace rest with _ | ⟨t0, ts⟩
      · exact absurd hsr (splitSpace_ne_nil rest)
      · rw [show splitSpace (c :: rest) = (c :: t0) :: ts by
          simp [splitSpace, hc, hsr]] at ht
        rcases List.mem_cons.mp ht with h | h
        · rw [h]
          intro hsp
          rcases List.mem_cons.mp hsp with h' | h'
          · exact hc h'.symm
          · exact ih t0 (hsr ▸ List.mem_cons_self t0 ts) h'
        · exact ih t (hsr ▸ List.mem_cons_of_mem t0 h)

/-- Joining the space-split tokens with single spaces reconstructs the
original string: the tokenization is exactly single-space splitting,
with no quoting or escaping. -/
theorem joinSpace_splitSpace (s : Str) : joinSpace (splitSpace s) = s := by
  induction s with
  | nil => rfl
  | cons c rest ih =>
    by_cases hc : c = ' '
    · rw [show splitSpace (c :: rest) = [] :: splitSpace rest by
        simp [splitSpace, hc]]
      rcases hsr : splitSpace rest with _ | ⟨t0, ts⟩
      · exact absurd hsr (splitSpace_ne_nil rest)
      · rw [show joinSpace ([] :: t0 :: ts) = ' ' :: joinSpace (t0 :: ts) from rfl]
        rw [← hsr, ih, hc]
    · rcases hsr : splitSpace rest with _ | ⟨t0, ts⟩
      · exact absurd hsr (splitSpace_ne_nil rest)
      · rw [show splitSpace (c :: rest) = (c :: t0) :: ts by
          simp [splitSpace, hc, hsr]]
        cases ts with
        | nil =>
          have : joinSpace [c :: t0] = c :: t0 := rfl
          rw [this]
          have hrest : t0 = rest := by
            have := ih
            rw [hsr] at this
            simpa [joinSpace] using this
          rw [hrest]
        | cons t1 ts' =>
          have : joinSpace ((c :: t0) :: t1 :: ts')
              = c :: (t0 ++ ' ' :: joinSpace (t1 :: ts')) := rfl
          rw [this]
          have hrest : t0 ++ ' ' :: joinSpace (t1 :: ts') = rest := by
            have := ih
            rw [hsr] at this
            simpa [joinSpace] using this
          rw [hrest]

/-- **C10.** `startCommand` tokenizes a configured command by splitting
on single space characters with no quoting or escaping: the first token
is the executable and the remaining tokens are the arguments
(`args[0]`, `args[1:]`), the tokens joined by single spaces reconstruct
the command exactly, and no token — hence no argument passed to the
child — ever contains a space. -/
theorem startCommand_tokenization (command : Str) :
    (startCommandArgv command).1 :: (startCommandArgv command).2 = splitSpace command ∧
    joinSpace (splitSpace command) = command ∧
    ∀ t ∈ splitSpace command, ' ' ∉ t := by
  refine ⟨?_, joinSpace_splitSpace command, splitSpace_no_space command⟩
  rcases h : splitSpace command with _ | ⟨t, ts⟩
  · exact absurd h (splitSpace_ne_nil command)
  · simp [startCommandArgv, h]

/-- Witness for `startCommand_tokenization` on `"go build -o app"`,
checking in particular that the token `"go"` contains no space. -/
theorem startCommand_tokenization_witness :
    ((startCommandArgv cmdDemoStr).1 :: (startCommandArgv cmdDemoStr).2 =
      splitSpace cmdDemoStr) ∧
    joinSpace (splitSpace cmdDemoStr) = cmdDemoStr ∧ ' ' ∉ tokDemo :=
  ⟨(startCommand_tokenization cmdDemoStr).1,
   (startCommand_tokenization cmdDemoStr).2.1,
   (startCommand_tokenization cmdDemoStr).2.2 tokDemo (by decide)⟩

/-- **C7 (code bug).** With no command-line arguments, no piped input,
and a `gomon.json` that parses but contains no `cmd` key (file contents
`{}`), the program does *not* exit with the usage message: because the
guard in `get` is `commands == nil && &jsonConf.Cmd != nil` — and the
address of a struct field is never nil — the empty `Cmd` string is
split into the one-element chain `[""]` and the watch loop is entered
with it.  The startup error path is taken only when the JSON file is
missing or malformed. -/
theorem empty_json_chain_enters_watch :
    mainStartup [] none (some jsonEmpty) = .enterWatch [[]] ∧
    mainStartup [] none none = .usageExit 2 :=
  ⟨rfl, rfl⟩

end Codmon
